import Mathlib

/-!
Shallow embedding of the answer-validation engine of the SQL tutorial game
(source of authority: src/src/chapters/chapter2.ts — `execQuery` and
`makeStandardValidator` — and the caller src/src/components/StepCard.tsx,
`runSql`).

Modelling conventions:
* sql.js scalar values (`number | string | null`) are modelled by `Value`
  (numbers restricted to integers; on that subdomain JavaScript strict
  equality is value equality and `String(n)` is plain decimal notation).
* `db.exec` either throws (an engine error carrying a message) or returns an
  array of result sets; a database handle is therefore modelled as a function
  from the SQL text to `Except String (List ResultSet)`, the `.error` channel
  being the thrown engine error with its message.
* `JSON.stringify` applied to an array of strings (used by the source only to
  test equality of the two column arrays) is modelled by the character-level
  encoder `jsonCols`, faithful to JSON array-of-string serialization
  (quoting, backslash escaping, comma separation); its injectivity is proved
  below via the decoder `unesc`.
* The default JavaScript `Array.prototype.sort()` used on the unordered path
  compares the elements' string representations (a row array stringifies to
  its values joined by commas, `null` rendering as the empty string) and is
  stable (ES2019); it is modelled by a stable insertion sort under the
  string-key order `rowLe`.
-/

namespace SqlNoir

/-- Scalar cell value produced by the query engine: SQL NULL, a string, or a
number (modelled as an integer, see file header). -/
inductive Value where
  | vNull : Value
  | vStr : String → Value
  | vNum : Int → Value
deriving DecidableEq, Repr

/-- A row is the ordered list of its cell values. -/
abbrev Row := List Value

/-- Canonical tabular result: ordered column names plus ordered rows
(the `QueryResult` type of src/src/components/ResultTable.tsx). -/
structure QueryResult where
  columns : List String
  rows : List Row
deriving DecidableEq, Repr

/-- One result set as reported by `db.exec` (sql.js shape
`{columns, values}`). -/
structure ResultSet where
  columns : List String
  values : List Row
deriving DecidableEq, Repr

/-- A database handle: running a SQL text either throws an engine error whose
message is the `String`, or reports a list of result sets. -/
abbrev Database := String → Except String (List ResultSet)

/-- Verdict returned by a validator: `ok`, plus a hint present on failure
(source shape `{ ok: boolean; hint?: string }`). -/
structure Verdict where
  ok : Bool
  hint : Option String
deriving DecidableEq, Repr

/-- The optional options object `{ enforceOrder?: boolean }` of
`makeStandardValidator`. -/
structure VOpts where
  enforceOrder : Option Bool
deriving DecidableEq, Repr

/-- Resolution of the source expression `opts?.enforceOrder ?? true`. -/
def resolveOrder (opts : Option VOpts) : Bool :=
  ((opts.bind VOpts.enforceOrder).getD true)

/-- JSON escaping of one character as `JSON.stringify` performs it on the
characters appearing in column names: a quote or a backslash is preceded by a
backslash, any other character stands for itself. (Control characters, which
`JSON.stringify` also escapes, are left verbatim here; both encodings are
injective, which is the only property the source uses — it compares the two
serializations for equality.) -/
def escChar (c : Char) : List Char :=
  if c = '"' ∨ c = '\\' then ['\\', c] else [c]

/-- JSON escaping of a character sequence. -/
def escStr : List Char → List Char
  | [] => []
  | c :: rest => escChar c ++ escStr rest

/-- JSON serialization of one string: quote, escaped body, quote. -/
def encStr (s : String) : List Char :=
  '"' :: (escStr s.data ++ ['"'])

/-- Comma interposition, as in joining JSON array elements (also the shape of
JavaScript `Array.prototype.join` with the default separator). -/
def sepComma : List (List Char) → List Char
  | [] => []
  | [x] => x
  | x :: y :: rest => x ++ ',' :: sepComma (y :: rest)

/-- Model of `JSON.stringify` on an array of strings: bracketed,
comma-separated, quoted-and-escaped elements. The source compares
`JSON.stringify(user.columns)` with `JSON.stringify(model.columns)`. -/
def jsonCols (cols : List String) : List Char :=
  '[' :: (sepComma (cols.map encStr) ++ [']'])

/-- Decoder for a JSON string body: reads an escaped character sequence up to
the next closing quote, returning the decoded body and the remainder. Used
only to prove the serialization injective. -/
def unesc : List Char → Option (List Char × List Char)
  | [] => none
  | c :: rest =>
    if c = '"' then some ([], rest)
    else if c = '\\' then
      match rest with
      | [] => none
      | d :: rest2 =>
        match unesc rest2 with
        | none => none
        | some p => some (d :: p.1, p.2)
    else
      match unesc rest with
      | none => none
      | some p => some (c :: p.1, p.2)

/-- Whitespace recognized by JavaScript `String.prototype.trim` (the
characters that can occur in engine-produced strings: space, tab, line feed,
carriage return, vertical tab, form feed). -/
def isJsSpace (c : Char) : Bool :=
  c = ' ' || c = '\t' || c = '\n' || c = '\r' || c.toNat = 11 || c.toNat = 12

/-- Removal of leading and trailing whitespace from a character sequence. -/
def jsTrimList (l : List Char) : List Char :=
  ((l.dropWhile isJsSpace).reverse.dropWhile isJsSpace).reverse

/-- Model of `String.prototype.trim`. -/
def jsTrim (s : String) : String :=
  ⟨jsTrimList s.data⟩

/-- The normalization of the source, `norm = v => typeof v === 'string' ?
v.trim() : v`: strings are trimmed, other values pass through. -/
def norm : Value → Value
  | .vStr s => .vStr (jsTrim s)
  | v => v

/-- One cell comparison of the source, `norm(a) !== norm(b)` negated: strict
equality of the normalized values. -/
def normEq (a b : Value) : Bool :=
  decide (norm a = norm b)

/-- The inner loop `for j` of the source: all cells of the two rows agree
under normalization. The two rows have equal length whenever this is reached
(the row-shape check precedes it); the truncating behaviour on unequal
lengths mirrors the loop bound `j < ra.length`. -/
def valsMatch : Row → Row → Bool
  | a :: as, b :: bs => normEq a b && valsMatch as bs
  | _, _ => true

/-- The outer loop `for i` of the source: per row, first the row-shape check,
then the cell loop; the first failing row determines the verdict. The hint on
a cell mismatch depends on the ordering policy, exactly as in the source.
The case of a learner list longer than the model list cannot be reached (the
row-count check ensures equal lengths); its value here is immaterial. -/
def compareRows (enforceOrder : Bool) : List Row → List Row → Verdict
  | ra :: A, rb :: B =>
    if ra.length ≠ rb.length then ⟨false, some "Row shape mismatch."⟩
    else if valsMatch ra rb then compareRows enforceOrder A B
    else ⟨false, some (if enforceOrder then "Ordering or values differ." else "Values differ.")⟩
  | _, _ => ⟨true, none⟩

/-- JavaScript string conversion of one cell value as it happens inside
`Array.prototype.toString` (the default-sort key): `null` contributes the
empty string, a string contributes itself, a number its decimal notation. -/
def valKey : Value → List Char
  | .vNull => []
  | .vStr s => s.data
  | .vNum n => (toString n).data

/-- JavaScript string conversion of a row (`String(row)` = values joined by
commas), the key under which the default sort compares rows. -/
def rowKey (r : Row) : List Char :=
  sepComma (r.map valKey)

/-- Lexicographic (code-unit) comparison of two character sequences, the
order JavaScript applies to the stringified elements in a default sort. -/
def leB : List Char → List Char → Bool
  | [], _ => true
  | _ :: _, [] => false
  | a :: as, b :: bs =>
    if a < b then true else if b < a then false else leB as bs

/-- The key comparison as a relation on keys. -/
def keyLe (s t : List Char) : Prop := leB s t = true

instance : DecidableRel keyLe := fun _ _ => inferInstanceAs (Decidable (_ = true))

/-- The default-sort comparison on rows: compare their string keys. -/
def rowLe (a b : Row) : Prop := keyLe (rowKey a) (rowKey b)

instance : DecidableRel rowLe := fun _ _ => inferInstanceAs (Decidable (_ = true))

/-- Model of `[...rows].sort()`: a stable sort of a copy of the row list under
the string-key comparison. -/
def jsSortRows (l : List Row) : List Row :=
  List.insertionSort rowLe l

/-- Modelled from the spec: strict comparison of two cell values in the order
the spec describes for the unordered path — null sorts before any non-null
value, then values compare by type rank, then natively (numbers by numeric
order, strings lexicographically). This definition follows the words of the
spec, not the source, and exists to be compared against the source's
`rowKey`-based order. -/
def specValLtB : Value → Value → Bool
  | .vNull, .vNull => false
  | .vNull, _ => true
  | _, .vNull => false
  | .vNum a, .vNum b => decide (a < b)
  | .vNum _, .vStr _ => true
  | .vStr _, .vNum _ => false
  | .vStr s, .vStr t => leB s.data t.data && !(leB t.data s.data)

/-- Modelled from the spec: lexicographic order over a row's values in column
order, built from `specValLtB`. -/
def specRowLeB : Row → Row → Bool
  | [], _ => true
  | _ :: _, [] => false
  | a :: as, b :: bs =>
    if specValLtB a b then true
    else if specValLtB b a then false
    else specRowLeB as bs

/-- Modelled from the spec: the row order the spec claims the unordered path
sorts by. -/
def specRowLe (a b : Row) : Prop := specRowLeB a b = true

instance : DecidableRel specRowLe := fun _ _ => inferInstanceAs (Decidable (_ = true))

/-- Modelled from the spec: sorting both row sequences by the spec's
value-lexicographic null-low order. -/
def specSortRows (l : List Row) : List Row :=
  List.insertionSort specRowLe l

/-- The query executor of the source (`execQuery` in chapter2.ts): an engine
error propagates; no result set normalizes to the empty result; otherwise
only the first result set is kept. -/
def execQuery (db : Database) (sql : String) : Except String QueryResult :=
  match db sql with
  | .error e => .error e
  | .ok res =>
    match res with
    | [] => .ok ⟨[], []⟩
    | r :: _ => .ok ⟨r.columns, r.values⟩

/-- The step validator of the source (`makeStandardValidator` in
chapter2.ts), as the function of the bound reference SQL, the options, the
database handle and the (possibly absent) user result. -/
def makeStandardValidator (modelSql : String) (opts : Option VOpts)
    (db : Database) (user : Option QueryResult) : Verdict :=
  match user with
  | none => ⟨false, some "Run your SQL first."⟩
  | some u =>
    match execQuery db modelSql with
    | .error _ => ⟨false, some "Internal model failed."⟩
    | .ok model =>
      if jsonCols u.columns ≠ jsonCols model.columns then
        ⟨false, some "Columns mismatch. Check names/order."⟩
      else if u.rows.length ≠ model.rows.length then
        ⟨false, some ("Row count should be " ++ toString model.rows.length ++ ".")⟩
      else
        compareRows (resolveOrder opts)
          (if resolveOrder opts then u.rows else jsSortRows u.rows)
          (if resolveOrder opts then model.rows else jsSortRows model.rows)

/-- The caller `runSql` of src/src/components/StepCard.tsx, restricted to the
data it computes from the engine outcome: on success the normalized result
(shown to the learner), on a thrown engine error the error state
`String(e.message)` — the engine's message itself. -/
def runSqlOutcome (db : Database) (sql : String) : Except String QueryResult :=
  match db sql with
  | .error e => .error e
  | .ok res =>
    match res with
    | [] => .ok ⟨[], []⟩
    | r :: _ => .ok ⟨r.columns, r.values⟩

/-- Fixture: a handle on which every query throws, as when the reference SQL
names a nonexistent column. -/
def dbBadRef : Database := fun _ => .error "no such column: x"

/-- Fixture: a handle on which every query throws with a syntax-error
message. -/
def dbEngineErr : Database := fun _ => .error "near SELEC: syntax error"

/-- Fixture: the reference reports two one-column rows. -/
def dbCount : Database :=
  fun _ => .ok [⟨["n"], [[Value.vStr "Ann"], [Value.vStr "Bo"]]⟩]

/-- Fixture: the reference reports no result set at all. -/
def dbEmptyRes : Database := fun _ => .ok []

/-- Fixture: the engine reports two result sets; only the first may be
kept. -/
def dbTwoRes : Database :=
  fun _ => .ok [⟨["a"], [[Value.vNum 1]]⟩, ⟨["b"], [[Value.vNum 2]]⟩]

/-- Fixture: a two-column reference in the order name, role. -/
def dbCols : Database := fun _ => .ok [⟨["a", "b"], []⟩]

/-- Fixture: reference rows whose string keys collide (a lone empty string
and a lone null both stringify to the empty string). -/
def dbUnordered : Database :=
  fun _ => .ok [⟨["c"], [[Value.vStr ""], [Value.vNull]]⟩]

/-- Fixture: reference rows with distinct string keys, listed b then a. -/
def dbSwap : Database :=
  fun _ => .ok [⟨["n"], [[Value.vStr "b"], [Value.vStr "a"]]⟩]

/-- Fixture: the ordered reference of the spec scenario, Ann before Bo. -/
def dbOrdered : Database :=
  fun _ => .ok [⟨["name", "role"],
    [[Value.vStr "Ann", Value.vStr "Cook"], [Value.vStr "Bo", Value.vStr "Server"]]⟩]

/-! ## Injectivity of the column serialization -/

theorem unesc_quote (t : List Char) : unesc ('"' :: t) = some ([], t) := by
  rw [unesc.eq_def]
  simp

theorem unesc_backslash (d : Char) (rest : List Char) :
    unesc ('\\' :: d :: rest) =
      match unesc rest with
      | none => none
      | some p => some (d :: p.1, p.2) := by
  rw [unesc.eq_def]
  simp

theorem unesc_other {c : Char} (h1 : ¬ c = '"') (h2 : ¬ c = '\\') (rest : List Char) :
    unesc (c :: rest) =
      match unesc rest with
      | none => none
      | some p => some (c :: p.1, p.2) := by
  rw [unesc.eq_def]
  simp [h1, h2]

theorem unesc_escStr : ∀ (s t : List Char), unesc (escStr s ++ '"' :: t) = some (s, t)
  | [], t => by simpa [escStr] using unesc_quote t
  | c :: s, t => by
    by_cases hc : c = '"' ∨ c = '\\'
    · have h1 : escStr (c :: s) ++ '"' :: t = '\\' :: c :: (escStr s ++ '"' :: t) := by
        simp [escStr, escChar, hc]
      rw [h1, unesc_backslash, unesc_escStr s t]
    · push_neg at hc
      have h1 : escStr (c :: s) ++ '"' :: t = c :: (escStr s ++ '"' :: t) := by
        simp [escStr, escChar, hc.1, hc.2]
      rw [h1, unesc_other hc.1 hc.2, unesc_escStr s t]

theorem sepComma_cons_encStr (s : String) (M : List (List Char)) :
    sepComma (encStr s :: M) =
      '"' :: (escStr s.data ++ '"' :: (if M = [] then [] else ',' :: sepComma M)) := by
  cases M with
  | nil => simp [sepComma, encStr]
  | cons y M' => simp [sepComma, encStr, List.append_assoc]

theorem sepComma_encStr_inj : ∀ (l₁ l₂ : List String),
    sepComma (l₁.map encStr) = sepComma (l₂.map encStr) → l₁ = l₂
  | [], [], _ => rfl
  | [], s :: r, h => by
    rw [List.map_nil, List.map_cons, sepComma_cons_encStr] at h
    simp [sepComma] at h
  | s :: r, [], h => by
    rw [List.map_nil, List.map_cons, sepComma_cons_encStr] at h
    simp [sepComma] at h
  | s :: r, t :: q, h => by
    rw [List.map_cons, List.map_cons, sepComma_cons_encStr, sepComma_cons_encStr] at h
    injection h with _ h
    have h₂ := congrArg unesc h
    rw [unesc_escStr, unesc_escStr] at h₂
    injection h₂ with h₂
    rw [Prod.mk.injEq] at h₂
    obtain ⟨hd, ht⟩ := h₂
    have hs : s = t := by
      cases s; cases t; exact congrArg String.mk hd
    subst hs
    cases r with
    | nil =>
      cases q with
      | nil => rfl
      | cons y q' => simp at ht
    | cons x r' =>
      cases q with
      | nil => simp at ht
      | cons y q' =>
        simp only [List.map_cons, ne_eq, reduceCtorEq, not_false_eq_true, if_neg] at ht
        injection ht with _ ht
        rw [sepComma_encStr_inj (x :: r') (y :: q') ht]

theorem jsonCols_inj : ∀ {l₁ l₂ : List String}, jsonCols l₁ = jsonCols l₂ → l₁ = l₂ := by
  intro l₁ l₂ h
  unfold jsonCols at h
  injection h with _ h
  exact sepComma_encStr_inj _ _ (List.append_cancel_right h)

/-! ## Normalization and the comparison loops -/

theorem valsMatch_iff_forall₂ : ∀ (ra rb : Row), ra.length = rb.length →
    (valsMatch ra rb = true ↔ List.Forall₂ (fun a b => normEq a b = true) ra rb)
  | [], [], _ => by simp [valsMatch]
  | [], _ :: _, h => by simp at h
  | _ :: _, [], h => by simp at h
  | a :: as, b :: bs, h => by
    have ih := valsMatch_iff_forall₂ as bs (by simpa using h)
    simp [valsMatch, Bool.and_eq_true, ih, List.forall₂_cons]

theorem compareRows_ok (eo : Bool) : ∀ (A B : List Row),
    List.Forall₂ (fun ra rb => ra.length = rb.length ∧ valsMatch ra rb = true) A B →
    compareRows eo A B = ⟨true, none⟩
  | [], [], _ => rfl
  | _ :: _, _ :: _, h => by
    cases h with
    | cons h₁ htail =>
      obtain ⟨hlen, hv⟩ := h₁
      simp [compareRows, hlen, hv, compareRows_ok eo _ _ htail]

theorem compareRows_firstFail (eo : Bool) : ∀ (A B : List Row), A.length = B.length →
    (∀ ra ∈ A, ∀ rb ∈ B, ra.length = rb.length) →
    ¬ List.Forall₂ (fun ra rb => valsMatch ra rb = true) A B →
    compareRows eo A B =
      ⟨false, some (if eo then "Ordering or values differ." else "Values differ.")⟩
  | [], [], _, _, hne => absurd List.Forall₂.nil hne
  | [], _ :: _, hl, _, _ => by simp at hl
  | _ :: _, [], hl, _, _ => by simp at hl
  | ra :: A, rb :: B, hl, hsz, hne => by
    have hlen : ra.length = rb.length := hsz ra (by simp) rb (by simp)
    by_cases hv : valsMatch ra rb = true
    · have hne' : ¬ List.Forall₂ (fun x y => valsMatch x y = true) A B :=
        fun h => hne (List.Forall₂.cons hv h)
      have ih := compareRows_firstFail eo A B (by simpa using hl)
        (fun x hx y hy => hsz x (by simp [hx]) y (by simp [hy])) hne'
      simp [compareRows, hlen, hv, ih]
    · have hv' : valsMatch ra rb = false := by simpa using hv
      simp [compareRows, hlen, hv']

/-! ## The string-key order used by the default sort -/

theorem leB_cons_iff {x y : Char} {xs ys : List Char} :
    leB (x :: xs) (y :: ys) = true ↔ x < y ∨ (x = y ∧ leB xs ys = true) := by
  have hdef : leB (x :: xs) (y :: ys) =
      if x < y then true else if y < x then false else leB xs ys := rfl
  rw [hdef]
  rcases lt_trichotomy x y with h | h | h
  · simp [h]
  · subst h
    rw [if_neg (lt_irrefl x), if_neg (lt_irrefl x)]
    simp
  · rw [if_neg (asymm h), if_pos h]
    simp [asymm h, ne_of_gt h]

theorem leB_total : ∀ (a b : List Char), leB a b = true ∨ leB b a = true
  | [], _ => Or.inl rfl
  | _ :: _, [] => Or.inr rfl
  | a :: as, b :: bs => by
    rcases lt_trichotomy a b with h | h | h
    · exact Or.inl (leB_cons_iff.mpr (Or.inl h))
    · subst h
      rcases leB_total as bs with ih | ih
      · exact Or.inl (leB_cons_iff.mpr (Or.inr ⟨rfl, ih⟩))
      · exact Or.inr (leB_cons_iff.mpr (Or.inr ⟨rfl, ih⟩))
    · exact Or.inr (leB_cons_iff.mpr (Or.inl h))

theorem leB_trans : ∀ (a b c : List Char),
    leB a b = true → leB b c = true → leB a c = true
  | [], _, _, _, _ => rfl
  | _ :: _, [], _, hab, _ => by simp [leB] at hab
  | _ :: _, _ :: _, [], _, hbc => by simp [leB] at hbc
  | a :: as, b :: bs, c :: cs, hab, hbc => by
    rcases leB_cons_iff.mp hab with h₁ | ⟨h₁, r₁⟩ <;>
      rcases leB_cons_iff.mp hbc with h₂ | ⟨h₂, r₂⟩
    · exact leB_cons_iff.mpr (Or.inl (lt_trans h₁ h₂))
    · exact leB_cons_iff.mpr (Or.inl (h₂ ▸ h₁))
    · exact leB_cons_iff.mpr (Or.inl (h₁ ▸ h₂))
    · exact leB_cons_iff.mpr (Or.inr ⟨h₁.trans h₂, leB_trans as bs cs r₁ r₂⟩)

theorem leB_antisymm : ∀ (a b : List Char),
    leB a b = true → leB b a = true → a = b
  | [], [], _, _ => rfl
  | [], _ :: _, _, hba => by simp [leB] at hba
  | _ :: _, [], hab, _ => by simp [leB] at hab
  | a :: as, b :: bs, hab, hba => by
    rcases leB_cons_iff.mp hab with h₁ | ⟨h₁, r₁⟩ <;>
      rcases leB_cons_iff.mp hba with h₂ | ⟨h₂, r₂⟩
    · exact absurd h₂ (asymm h₁)
    · exact absurd h₁ (h₂ ▸ lt_irrefl _)
    · exact absurd h₂ (h₁ ▸ lt_irrefl _)
    · rw [h₁, leB_antisymm as bs r₁ r₂]

instance : IsTotal (List Char) keyLe := ⟨leB_total⟩

instance : IsTrans (List Char) keyLe := ⟨leB_trans⟩

instance : IsAntisymm (List Char) keyLe := ⟨leB_antisymm⟩

instance : IsTotal Row rowLe := ⟨fun a b => leB_total _ _⟩

instance : IsTrans Row rowLe := ⟨fun a b c => leB_trans _ _ _⟩

theorem forall₂_of_map_eq {α β : Type} {f : α → β} {P : α → α → Prop} :
    ∀ (A B : List α), A.map f = B.map f →
      (∀ a ∈ A, ∀ b ∈ B, f a = f b → P a b) → List.Forall₂ P A B
  | [], [], _, _ => List.Forall₂.nil
  | [], _ :: _, h, _ => by simp at h
  | _ :: _, [], h, _ => by simp at h
  | a :: A, b :: B, h, hP => by
    simp only [List.map_cons, List.cons.injEq] at h
    exact List.Forall₂.cons (hP a (by simp) b (by simp) h.1)
      (forall₂_of_map_eq A B h.2 (fun x hx y hy => hP x (by simp [hx]) y (by simp [hy])))

/-! ## Unfolding of the validator past a successful reference execution -/

theorem validator_some_ok {modelSql : String} {opts : Option VOpts} {db : Database}
    {u m : QueryResult} (hm : execQuery db modelSql = .ok m) :
    makeStandardValidator modelSql opts db (some u) =
      if jsonCols u.columns ≠ jsonCols m.columns then
        ⟨false, some "Columns mismatch. Check names/order."⟩
      else if u.rows.length ≠ m.rows.length then
        ⟨false, some ("Row count should be " ++ toString m.rows.length ++ ".")⟩
      else
        compareRows (resolveOrder opts)
          (if resolveOrder opts then u.rows else jsSortRows u.rows)
          (if resolveOrder opts then m.rows else jsSortRows m.rows) := by
  simp only [makeStandardValidator, hm]

/-! ## Claim theorems -/

/-- C1: the comparator applies its checks in strict precedence order: once the
reference executed, a column mismatch is reported before anything else,
regardless of the rows; and with correct columns, a row-count difference is
reported with the expected count in the hint, for every row content — so no
value comparison influences the verdict. -/
theorem check_precedence (modelSql : String) (opts : Option VOpts) (db : Database)
    (u m : QueryResult) (hm : execQuery db modelSql = .ok m) :
    (u.columns ≠ m.columns →
      makeStandardValidator modelSql opts db (some u) =
        ⟨false, some "Columns mismatch. Check names/order."⟩) ∧
    (u.columns = m.columns → u.rows.length ≠ m.rows.length →
      makeStandardValidator modelSql opts db (some u) =
        ⟨false, some ("Row count should be " ++ toString m.rows.length ++ ".")⟩) := by
  rw [validator_some_ok hm]
  constructor
  · intro hne
    rw [if_pos (fun hj => hne (jsonCols_inj hj))]
  · intro hcols hcount
    rw [if_neg (fun h => h (congrArg jsonCols hcols)), if_pos hcount]

/-- C1 witness: a learner result with correct columns but one row where the
reference has two (and whose single row would match the truncated reference)
fails with the row-count hint naming the expected count. -/
theorem check_precedence_witness :
    makeStandardValidator "q" none dbCount (some ⟨["n"], [[Value.vStr "Ann"]]⟩) =
      ⟨false, some "Row count should be 2."⟩ :=
  (check_precedence "q" none dbCount ⟨["n"], [[Value.vStr "Ann"]]⟩
    ⟨["n"], [[Value.vStr "Ann"], [Value.vStr "Bo"]]⟩ rfl).2 rfl (by decide)

/-- C2: cell comparison happens through the normalization function: two
strings compare equal exactly when their trimmed forms coincide, numbers
compare natively, a null compares equal only to a null, and the single-row
content check succeeds exactly when all positions agree under that
normalization. -/
theorem value_normalization :
    (∀ s t : String, normEq (.vStr s) (.vStr t) = true ↔ jsTrim s = jsTrim t) ∧
    (∀ x y : Int, normEq (.vNum x) (.vNum y) = true ↔ x = y) ∧
    (∀ v : Value, normEq .vNull v = true ↔ v = .vNull) ∧
    (∀ (eo : Bool) (ra rb : Row), ra.length = rb.length →
      (compareRows eo [ra] [rb] = ⟨true, none⟩ ↔
        List.Forall₂ (fun a b => normEq a b = true) ra rb)) := by
  refine ⟨?_, ?_, ?_, ?_⟩
  · intro s t
    simp [normEq, norm]
  · intro x y
    simp [normEq, norm]
  · intro v
    cases v <;> simp [normEq, norm]
  · intro eo ra rb hlen
    have hv := valsMatch_iff_forall₂ ra rb hlen
    by_cases h : valsMatch ra rb = true
    · simp [compareRows, hlen, h, hv.mp h]
    · have h' : valsMatch ra rb = false := by simpa using h
      have hred : compareRows eo [ra] [rb] =
          ⟨false, some (if eo then "Ordering or values differ." else "Values differ.")⟩ := by
        simp [compareRows, hlen, h']
      rw [hred]
      constructor
      · intro hverd
        exact absurd (congrArg Verdict.ok hverd) (by simp)
      · intro hf
        exact absurd (hv.mpr hf) h

/-- C2 witness: a trailing space is normalized away, while a null marker never
equals the string NULL nor the empty string, and the single-row check passes
on the trimmed pair. -/
theorem value_normalization_witness :
    normEq (Value.vStr "23:00 ") (Value.vStr "23:00") = true ∧
    ¬ normEq Value.vNull (Value.vStr "NULL") = true ∧
    ¬ normEq Value.vNull (Value.vStr "") = true ∧
    compareRows true [[Value.vStr "23:00 "]] [[Value.vStr "23:00"]] = ⟨true, none⟩ := by
  refine ⟨(value_normalization.1 _ _).mpr (by decide), ?_, ?_, ?_⟩
  · intro h
    exact absurd ((value_normalization.2.2.1 _).mp h) (by decide)
  · intro h
    exact absurd ((value_normalization.2.2.1 _).mp h) (by decide)
  · exact (value_normalization.2.2.2 true _ _ (by decide)).mpr
      (List.Forall₂.cons (by decide) List.Forall₂.nil)

/-- C3 counterexample: the unordered path does not sort by the value-wise
lexicographic null-low order the claim describes: on the rows [2] and [10]
the code's sort (string keys) and the spec's order disagree — the code places
[10] first because the string key of 10 precedes that of 2. -/
theorem default_sort_not_value_lex :
    jsSortRows [[Value.vNum 2], [Value.vNum 10]] = [[Value.vNum 10], [Value.vNum 2]] ∧
    specSortRows [[Value.vNum 2], [Value.vNum 10]] = [[Value.vNum 2], [Value.vNum 10]] ∧
    jsSortRows [[Value.vNum 2], [Value.vNum 10]] ≠
      specSortRows [[Value.vNum 2], [Value.vNum 10]] := by
  refine ⟨by decide, by decide, by decide⟩

/-- C3 amended: the unordered path sorts both row sequences by a total,
deterministic preorder — ascending lexicographic order of the rows'
JavaScript string representations — stably; the result is a permutation of
the input, sorted under that key order, and the key order is total. -/
theorem unordered_sort_is_string_key_order (l : List Row) :
    (jsSortRows l).Perm l ∧ List.Sorted rowLe (jsSortRows l) ∧
      ∀ a b : Row, rowLe a b ∨ rowLe b a :=
  ⟨List.perm_insertionSort rowLe l, List.sorted_insertionSort rowLe l,
    fun _ _ => leB_total _ _⟩

/-- C4 counterexample: when the reference SQL fails, the verdict hint is the
literal text Internal model failed., not the text internal validation error
stated by the claim. -/
theorem internal_hint_text_counterexample :
    makeStandardValidator "SELECT employee_name FROM shift_logs" none dbBadRef
        (some ⟨[], []⟩) = ⟨false, some "Internal model failed."⟩ ∧
      ("Internal model failed." : String) ≠ "internal validation error" := by
  refine ⟨by decide, by decide⟩

/-- C4 amended: if executing the reference SQL fails, the validator does not
propagate the engine error: for every database state and every present user
result it returns the fixed verdict with ok false and hint Internal model
failed. -/
theorem reference_error_soft_fail (modelSql : String) (opts : Option VOpts)
    (db : Database) (u : QueryResult) (e : String) (h : db modelSql = .error e) :
    makeStandardValidator modelSql opts db (some u) =
      ⟨false, some "Internal model failed."⟩ := by
  simp only [makeStandardValidator, execQuery, h]

/-- C4 witness: the soft failure at a concrete failing reference. -/
theorem reference_error_soft_fail_witness :
    makeStandardValidator "SELECT x FROM t" none dbBadRef (some ⟨["a"], []⟩) =
      ⟨false, some "Internal model failed."⟩ :=
  reference_error_soft_fail "SELECT x FROM t" none dbBadRef ⟨["a"], []⟩
    "no such column: x" rfl

/-- C5: the executor returns the empty canonical result when the engine
reports no result sets, and otherwise exactly the first result set's columns
and rows, discarding the rest. -/
theorem execQuery_first_result (db : Database) (sql : String) :
    (db sql = .ok [] → execQuery db sql = .ok ⟨[], []⟩) ∧
    (∀ r rest, db sql = .ok (r :: rest) →
      execQuery db sql = .ok ⟨r.columns, r.values⟩) := by
  constructor
  · intro h
    simp [execQuery, h]
  · intro r rest h
    simp [execQuery, h]

/-- C5 witness: both normalization cases at concrete handles; the second
result set of the two-set handle is discarded. -/
theorem execQuery_first_result_witness :
    execQuery dbEmptyRes "q" = .ok ⟨[], []⟩ ∧
    execQuery dbTwoRes "q" = .ok ⟨["a"], [[Value.vNum 1]]⟩ :=
  ⟨(execQuery_first_result dbEmptyRes "q").1 rfl,
    (execQuery_first_result dbTwoRes "q").2 ⟨["a"], [[Value.vNum 1]]⟩
      [⟨["b"], [[Value.vNum 2]]⟩] rfl⟩

/-- C6: the column check demands exact sequence equality, so a user result
whose columns are the right set in a different order fails with the column
mismatch hint, whatever the rows are. -/
theorem column_order_strictness (modelSql : String) (opts : Option VOpts)
    (db : Database) (u m : QueryResult) (hm : execQuery db modelSql = .ok m)
    (hperm : u.columns.Perm m.columns) (hne : u.columns ≠ m.columns) :
    makeStandardValidator modelSql opts db (some u) =
      ⟨false, some "Columns mismatch. Check names/order."⟩ := by
  rw [validator_some_ok hm, if_pos (fun hj => hne (jsonCols_inj hj))]

/-- C6 witness: reversed columns fail the column check with empty rows. -/
theorem column_order_strictness_witness :
    makeStandardValidator "q" none dbCols (some ⟨["b", "a"], []⟩) =
      ⟨false, some "Columns mismatch. Check names/order."⟩ :=
  column_order_strictness "q" none dbCols ⟨["b", "a"], []⟩ ⟨["a", "b"], []⟩
    rfl (by decide) (by decide)

/-- C7 counterexample: under enforceOrder false, two row sequences that are
permutations of each other can still fail: a lone null row and a lone
empty-string row share the same string key, the stable sort keeps each side's
original order, and the pairwise comparison then rejects null against the
empty string. -/
theorem unordered_perm_counterexample :
    ([[Value.vNull], [Value.vStr ""]] : List Row).Perm
        [[Value.vStr ""], [Value.vNull]] ∧
      makeStandardValidator "q" (some ⟨some false⟩) dbUnordered
          (some ⟨["c"], [[Value.vNull], [Value.vStr ""]]⟩) =
        ⟨false, some "Values differ."⟩ := by
  refine ⟨by decide, by decide⟩

/-- C7 amended: under enforceOrder false, results with equal columns whose
row sequences are permutations of each other pass, provided any user row and
reference row sharing the same string key agree under value normalization
(the condition the key collision of the counterexample violates). -/
theorem unordered_perm_pass_distinct_keys (modelSql : String) (opts : Option VOpts)
    (db : Database) (u m : QueryResult) (hm : execQuery db modelSql = .ok m)
    (heo : resolveOrder opts = false) (hcols : u.columns = m.columns)
    (hperm : u.rows.Perm m.rows)
    (hkeys : ∀ r₁ ∈ u.rows, ∀ r₂ ∈ m.rows, rowKey r₁ = rowKey r₂ →
      r₁.length = r₂.length ∧ valsMatch r₁ r₂ = true) :
    makeStandardValidator modelSql opts db (some u) = ⟨true, none⟩ := by
  rw [validator_some_ok hm, if_neg (fun h => h (congrArg jsonCols hcols)),
    if_neg (fun h => h hperm.length_eq), heo]
  simp only [Bool.false_eq_true, if_false]
  have hpu := List.perm_insertionSort rowLe u.rows
  have hpm := List.perm_insertionSort rowLe m.rows
  have hAB : (jsSortRows u.rows).Perm (jsSortRows m.rows) :=
    hpu.trans (hperm.trans hpm.symm)
  have hsA : List.Sorted keyLe ((jsSortRows u.rows).map rowKey) :=
    List.Pairwise.map rowKey (fun _ _ h => h)
      (List.sorted_insertionSort rowLe u.rows)
  have hsB : List.Sorted keyLe ((jsSortRows m.rows).map rowKey) :=
    List.Pairwise.map rowKey (fun _ _ h => h)
      (List.sorted_insertionSort rowLe m.rows)
  have hkeq : (jsSortRows u.rows).map rowKey = (jsSortRows m.rows).map rowKey :=
    List.eq_of_perm_of_sorted (hAB.map rowKey) hsA hsB
  exact compareRows_ok false _ _
    (forall₂_of_map_eq _ _ hkeq
      (fun a ha b hb hf => hkeys a (hpu.mem_iff.mp ha) b (hpm.mem_iff.mp hb) hf))

/-- C7 witness: identical rows with distinct keys in swapped order pass under
enforceOrder false. -/
theorem unordered_perm_pass_distinct_keys_witness :
    makeStandardValidator "q" (some ⟨some false⟩) dbSwap
        (some ⟨["n"], [[Value.vStr "a"], [Value.vStr "b"]]⟩) = ⟨true, none⟩ :=
  unordered_perm_pass_distinct_keys "q" (some ⟨some false⟩) dbSwap
    ⟨["n"], [[Value.vStr "a"], [Value.vStr "b"]]⟩
    ⟨["n"], [[Value.vStr "b"], [Value.vStr "a"]]⟩
    rfl rfl rfl (by decide) (by decide)

/-- C8: under enforceOrder true, well-shaped results with equal columns whose
rows are a genuine rearrangement (a permutation that does not already agree
position by position under normalization) fail with the ordering hint. -/
theorem ordered_permutation_fails (modelSql : String) (opts : Option VOpts)
    (db : Database) (u m : QueryResult) (hm : execQuery db modelSql = .ok m)
    (heo : resolveOrder opts = true) (hcols : u.columns = m.columns)
    (hszu : ∀ r ∈ u.rows, r.length = u.columns.length)
    (hszm : ∀ r ∈ m.rows, r.length = m.columns.length)
    (hperm : u.rows.Perm m.rows)
    (hne : ¬ List.Forall₂ (fun ra rb => valsMatch ra rb = true) u.rows m.rows) :
    makeStandardValidator modelSql opts db (some u) =
      ⟨false, some "Ordering or values differ."⟩ := by
  rw [validator_some_ok hm, if_neg (fun h => h (congrArg jsonCols hcols)),
    if_neg (fun h => h hperm.length_eq), heo]
  simp only [if_true]
  have := compareRows_firstFail true u.rows m.rows hperm.length_eq
    (fun ra hra rb hrb => by rw [hszu ra hra, hszm rb hrb, hcols]) hne
  simpa using this

/-- C8 witness: the spec scenario — the right rows in swapped order under the
default policy fail with the ordering hint. -/
theorem ordered_permutation_fails_witness :
    makeStandardValidator "q" none dbOrdered
        (some ⟨["name", "role"],
          [[Value.vStr "Bo", Value.vStr "Server"],
            [Value.vStr "Ann", Value.vStr "Cook"]]⟩) =
      ⟨false, some "Ordering or values differ."⟩ :=
  ordered_permutation_fails "q" none dbOrdered
    ⟨["name", "role"],
      [[Value.vStr "Bo", Value.vStr "Server"], [Value.vStr "Ann", Value.vStr "Cook"]]⟩
    ⟨["name", "role"],
      [[Value.vStr "Ann", Value.vStr "Cook"], [Value.vStr "Bo", Value.vStr "Server"]]⟩
    rfl rfl rfl (by decide) (by decide) (by decide)
    (fun h => by
      cases h with
      | cons h₁ _ => exact absurd h₁ (by decide))

/-- C9: a failing SQL execution makes the executor fail with the engine's
message verbatim — nothing is caught inside it — and the caller of the run
action surfaces exactly that message. -/
theorem engine_error_propagates (db : Database) (sql : String) (e : String)
    (h : db sql = .error e) :
    execQuery db sql = .error e ∧ runSqlOutcome db sql = .error e := by
  constructor
  · simp [execQuery, h]
  · simp [runSqlOutcome, h]

/-- C9 witness: a syntax error surfaces verbatim through both paths. -/
theorem engine_error_propagates_witness :
    execQuery dbEngineErr "SELEC 1" = .error "near SELEC: syntax error" ∧
    runSqlOutcome dbEngineErr "SELEC 1" = .error "near SELEC: syntax error" :=
  engine_error_propagates dbEngineErr "SELEC 1" "near SELEC: syntax error" rfl

/-- C10: an absent user result short-circuits to the not-run verdict for
every reference SQL, policy and database state — the reference query is never
consulted, so even a handle on which every execution fails yields the not-run
hint, not the internal-error one. -/
theorem absent_user_short_circuit (modelSql : String) (opts : Option VOpts)
    (db : Database) :
    makeStandardValidator modelSql opts db none =
      ⟨false, some "Run your SQL first."⟩ := rfl

end SqlNoir
